import Mathlib

/-!
Verification of the reconciliation and upload-decision logic of
`S3Manager.py` (NullLink-Pi).

The SQLite table `s3_files (filename TEXT PRIMARY KEY, size INTEGER,
updated_at TEXT)` is modelled as a list of `CacheRecord`s, and the SQL
statements issued by the code are modelled row by row (`sqlUpdate`,
`sqlInsert`, `sqlDelete`, `insertOrReplace` for INSERT OR REPLACE).
Python dictionaries built by comprehensions are modelled by `dictOf`
(insertion order kept, a later value for the same key wins).  Wall-clock
readings (`datetime.now()`) are passed explicitly as a `Now` structure,
and the `strftime` patterns used by `format_datetime` are modelled digit
by digit with zero padding.  Values produced for the `updated_at` column
are opaque strings passed in by the caller, since no claim inspects them.
Exceptions (`ValueError`, re-raised `ClientError`, upload failures) are
modelled with `Except String`.
-/

namespace S3Manager

/-- One row of the `s3_files` table. -/
structure CacheRecord where
  filename : String
  size : Int
  updated_at : String
  deriving DecidableEq, Repr

/-- One SQL mutation issued by `update_local_database` against `s3_files`. -/
inductive Mutation where
  | insert (filename : String) (size : Int)
  | update (filename : String) (size : Int)
  | delete (filename : String)
  deriving DecidableEq, Repr

/-- First row matching `WHERE filename = k` (the primary key makes it unique). -/
def lookupRecord (c : List CacheRecord) (k : String) : Option CacheRecord :=
  c.find? fun r => r.filename == k

/-- Size column of the row with primary key `k`. -/
def lookupSize (c : List CacheRecord) (k : String) : Option Int :=
  (lookupRecord c k).map (·.size)

/-- `UPDATE s3_files SET size = ?, updated_at = ? WHERE filename = ?`. -/
def sqlUpdate (c : List CacheRecord) (k : String) (s : Int) (now : String) : List CacheRecord :=
  c.map fun r => if r.filename = k then { r with size := s, updated_at := now } else r

/-- `INSERT INTO s3_files (filename, size, updated_at) VALUES (?, ?, ?)`. -/
def sqlInsert (c : List CacheRecord) (k : String) (s : Int) (now : String) : List CacheRecord :=
  c ++ [{ filename := k, size := s, updated_at := now }]

/-- `DELETE FROM s3_files WHERE filename = ?`. -/
def sqlDelete (c : List CacheRecord) (k : String) : List CacheRecord :=
  c.filter fun r => r.filename != k

/-- `INSERT OR REPLACE INTO s3_files ...`: the conflicting row (if any) is
replaced by the fresh one. -/
def insertOrReplace (c : List CacheRecord) (k : String) (s : Int) (now : String) :
    List CacheRecord :=
  (c.filter fun r => r.filename != k) ++ [{ filename := k, size := s, updated_at := now }]

/-- Assignment `d[k] = v` on a Python dict kept as an ordered association list:
an existing key keeps its position and gets the new value, a new key goes to
the end. -/
def dictInsert (d : List (String × Int)) (k : String) (v : Int) : List (String × Int) :=
  if d.any fun p => p.1 == k then
    d.map fun p => if p.1 = k then (k, v) else p
  else
    d ++ [(k, v)]

/-- A Python dict comprehension over a list of key/value pairs. -/
def dictOf (l : List (String × Int)) : List (String × Int) :=
  l.foldl (fun d p => dictInsert d p.1 p.2) []

/-- Lookup in an ordered association list (Python `d[k]` / `k in d`). -/
def listLookup (l : List (String × Int)) (k : String) : Option Int :=
  (l.find? fun p => p.1 == k).map (·.2)

/-- First loop of `update_local_database`: for every `(filename, size)` of
`current_files`, update the row when the snapshot `existing_files` holds a
different size, insert it when the key is absent from the snapshot, do
nothing when sizes agree.  Returns the table state and the mutation log. -/
def phase1 (existing : List (String × Int)) (now : String) :
    List (String × Int) → List CacheRecord → List CacheRecord × List Mutation
  | [], cache => (cache, [])
  | (k, s) :: rest, cache =>
    match listLookup existing k with
    | some s0 =>
      if s0 ≠ s then
        let r := phase1 existing now rest (sqlUpdate cache k s now)
        (r.1, Mutation.update k s :: r.2)
      else
        phase1 existing now rest cache
    | none =>
      let r := phase1 existing now rest (sqlInsert cache k s now)
      (r.1, Mutation.insert k s :: r.2)

/-- Second loop of `update_local_database`: delete every snapshot key that is
absent from `current_files`. -/
def phase2 (currentKeys : List String) :
    List String → List CacheRecord → List CacheRecord × List Mutation
  | [], cache => (cache, [])
  | k :: rest, cache =>
    if k ∈ currentKeys then
      phase2 currentKeys rest cache
    else
      let r := phase2 currentKeys rest (sqlDelete cache k)
      (r.1, Mutation.delete k :: r.2)

/-- Outcome of `s3.list_objects_v2`: either the listing (key/size pairs) or a
`ClientError` carrying its error code. -/
inductive ListResult where
  | ok (files : List (String × Int))
  | clientError (code : String)
  deriving DecidableEq, Repr

/-- Body of `update_local_database` after a successful listing fetch:
`existing_files` and `current_files` are dict comprehensions, then the two
loops run on the table. -/
def reconcileCore (files : List (String × Int)) (cache : List CacheRecord) (now : String) :
    List CacheRecord × List Mutation :=
  let existing := dictOf (cache.map fun r => (r.filename, r.size))
  let current := dictOf files
  let p1 := phase1 existing now current cache
  let p2 := phase2 (current.map Prod.fst) (existing.map Prod.fst) p1.1
  (p2.1, p1.2 ++ p2.2)

/-- `update_local_database`: an `AllAccessDisabled` client error is reported
and the function returns with the table untouched; any other client error is
re-raised; a successful listing runs the reconciliation body. -/
def update_local_database (res : ListResult) (cache : List CacheRecord) (now : String) :
    Except String (List CacheRecord × List Mutation) :=
  match res with
  | ListResult.ok files => Except.ok (reconcileCore files cache now)
  | ListResult.clientError code =>
    if code = "AllAccessDisabled" then Except.ok (cache, [])
    else Except.error code

/-- The fields of `datetime.now()` that the `strftime` patterns of
`format_datetime` consult (`week` is the `%U` week number). -/
structure Now where
  year : Nat
  month : Nat
  day : Nat
  hour : Nat
  minute : Nat
  second : Nat
  week : Nat
  deriving DecidableEq, Repr

/-- Bounds on a `Now` that any real `datetime` satisfies (Python years stop
at 9999, every other field is two digits wide). -/
def Now.Valid (t : Now) : Prop :=
  t.year < 10000 ∧ t.month < 100 ∧ t.day < 100 ∧ t.hour < 100 ∧
    t.minute < 100 ∧ t.second < 100 ∧ t.week < 100

/-- Decimal digit character. -/
def digitChar : Nat → Char
  | 0 => '0' | 1 => '1' | 2 => '2' | 3 => '3' | 4 => '4'
  | 5 => '5' | 6 => '6' | 7 => '7' | 8 => '8' | 9 => '9'
  | _ => '0'

/-- Two-digit zero-padded field, as printed by `%m`, `%d`, `%H`, `%M`, `%S`,
`%U`. -/
def pad2 (n : Nat) : String :=
  String.mk [digitChar (n / 10 % 10), digitChar (n % 10)]

/-- Four-digit zero-padded year, as printed by `%Y`. -/
def pad4 (n : Nat) : String :=
  String.mk [digitChar (n / 1000 % 10), digitChar (n / 100 % 10),
    digitChar (n / 10 % 10), digitChar (n % 10)]

/-- `format_datetime`: renders `datetime.now()` under the configured
`DT_RULE`, raising `ValueError` on an unrecognized rule. -/
def format_datetime (rule : String) (t : Now) : Except String String :=
  if rule = "seconds" then
    Except.ok (pad4 t.year ++ pad2 t.month ++ pad2 t.day ++ pad2 t.hour ++
      pad2 t.minute ++ pad2 t.second)
  else if rule = "hours" then
    Except.ok (pad4 t.year ++ pad2 t.month ++ pad2 t.day ++ pad2 t.hour)
  else if rule = "days" then
    Except.ok (pad4 t.year ++ pad2 t.month ++ pad2 t.day)
  else if rule = "weeks" then
    Except.ok (pad4 t.year ++ pad2 t.week)
  else if rule = "months" then
    Except.ok (pad4 t.year ++ pad2 t.month)
  else if rule = "years" then
    Except.ok (pad4 t.year)
  else if rule = "never" then
    Except.ok ""
  else
    Except.error "Invalid DT_RULE value"

/-- Body of `build_s3_filename` once `datetime_str` is in hand: a non-empty
bucket goes between the MAC and the file name, an empty one is dropped
together with its separator. -/
def s3NameOfBucket (datetime_str mac filename : String) : String :=
  if datetime_str ≠ "" then mac ++ "/" ++ datetime_str ++ "/" ++ filename
  else mac ++ "/" ++ filename

/-- `build_s3_filename`, with the `format_datetime` call (and its possible
`ValueError`) made explicit. -/
def build_s3_filename (rule : String) (t : Now) (mac filename : String) :
    Except String String :=
  (format_datetime rule t).map fun datetime_str => s3NameOfBucket datetime_str mac filename

/-- The SELECT of `needFile`: a row matching both the filename and the size
exists exactly when `find?` succeeds; `needFile` returns `True` when none
does. -/
def needFileCheck (s3_filename : String) (size : Int) (cache : List CacheRecord) : Bool :=
  (cache.find? fun r => r.filename == s3_filename && r.size == size).isNone

/-- `needFile`: builds the key for the current moment and queries the table.
The table argument is the committed database state, because `needFile` opens
its own connection to the database file. -/
def needFile (rule : String) (t : Now) (mac filename : String) (size : Int)
    (cache : List CacheRecord) : Except String Bool :=
  (build_s3_filename rule t mac filename).map fun s3_filename =>
    needFileCheck s3_filename size cache

/-- One regular file met by `upload_files`, together with the wall-clock
readings of its iteration (`t_need` inside `needFile`, `t_key` when the S3
key is built), the opaque `updated_at` string, and whether
`s3.upload_file` succeeds on it. -/
structure FileEntry where
  mac : String
  filename : String
  size : Int
  t_need : Now
  t_key : Now
  ts : String
  upload_ok : Bool
  deriving DecidableEq, Repr

/-- One iteration of the inner loop of `upload_files`.  `committed` is the
durable database state seen by `needFile` through its fresh connection;
`txn` is the uncommitted view of the cursor held by `upload_files`.  A
failed transfer raises before any INSERT OR REPLACE for that file. -/
def uploadStep (rule : String) (committed txn : List CacheRecord) (e : FileEntry) :
    Except String (List CacheRecord) :=
  match needFile rule e.t_need e.mac e.filename e.size committed with
  | Except.error msg => Except.error msg
  | Except.ok need =>
    if need then
      match build_s3_filename rule e.t_key e.mac e.filename with
      | Except.error msg => Except.error msg
      | Except.ok s3_key =>
        if e.upload_ok then Except.ok (insertOrReplace txn s3_key e.size e.ts)
        else Except.error "upload failed"
    else Except.ok txn

/-- The file loop of `upload_files` over the flattened directory walk. -/
def uploadLoop (rule : String) (committed : List CacheRecord) :
    List FileEntry → List CacheRecord → Except String (List CacheRecord)
  | [], txn => Except.ok txn
  | e :: rest, txn =>
    match uploadStep rule committed txn e with
    | Except.ok txn2 => uploadLoop rule committed rest txn2
    | Except.error msg => Except.error msg

/-- `upload_files`: the cursor starts from the committed state, the loop
runs, and `conn.commit()` executes only after the whole loop; an exception
propagates before the commit, so the durable state is then the original one.
Returns the durable state after the call and the propagated error, if any. -/
def upload_files (rule : String) (entries : List FileEntry) (committed : List CacheRecord) :
    List CacheRecord × Option String :=
  match uploadLoop rule committed entries committed with
  | Except.ok txn => (txn, none)
  | Except.error msg => (committed, some msg)

/-- A string free of the `/` separator. -/
def slashFree (s : String) : Prop := ('/' : Char) ∉ s.data

instance : DecidablePred slashFree := fun s =>
  inferInstanceAs (Decidable (('/' : Char) ∉ s.data))

/-- Two wall-clock readings fall in the same time bucket of a rule when the
fields consulted by that rule's `strftime` pattern agree. -/
def sameBucket (rule : String) (t t2 : Now) : Prop :=
  if rule = "seconds" then
    t.year = t2.year ∧ t.month = t2.month ∧ t.day = t2.day ∧ t.hour = t2.hour ∧
      t.minute = t2.minute ∧ t.second = t2.second
  else if rule = "hours" then
    t.year = t2.year ∧ t.month = t2.month ∧ t.day = t2.day ∧ t.hour = t2.hour
  else if rule = "days" then
    t.year = t2.year ∧ t.month = t2.month ∧ t.day = t2.day
  else if rule = "weeks" then
    t.year = t2.year ∧ t.week = t2.week
  else if rule = "months" then
    t.year = t2.year ∧ t.month = t2.month
  else if rule = "years" then
    t.year = t2.year
  else
    True

theorem lookupRecord_cons (r : CacheRecord) (c : List CacheRecord) (k : String) :
    lookupRecord (r :: c) k = if r.filename = k then some r else lookupRecord c k := by
  by_cases h : r.filename = k
  · simp [lookupRecord, List.find?, h]
  · have hb : (r.filename == k) = false := by simp [h]
    simp [lookupRecord, List.find?, h, hb]

theorem lookupRecord_eq_none_iff (c : List CacheRecord) (k : String) :
    lookupRecord c k = none ↔ ∀ r ∈ c, r.filename ≠ k := by
  simp [lookupRecord, List.find?_eq_none]

theorem lookupRecord_ne_none_of_mem (c : List CacheRecord) (r : CacheRecord) (k : String)
    (hr : r ∈ c) (hk : r.filename = k) : lookupRecord c k ≠ none := by
  intro h
  exact (lookupRecord_eq_none_iff c k).1 h r hr hk

theorem mem_keys_iff_lookupRecord (c : List CacheRecord) (k : String) :
    k ∈ c.map CacheRecord.filename ↔ lookupRecord c k ≠ none := by
  constructor
  · rintro hk h
    rcases List.mem_map.1 hk with ⟨r, hr, hrk⟩
    exact (lookupRecord_eq_none_iff c k).1 h r hr hrk
  · intro h
    rcases Option.ne_none_iff_exists.1 h with ⟨r, hr⟩
    have hmem := List.mem_of_find?_eq_some hr.symm
    have hpred := List.find?_some hr.symm
    have : r.filename = k := by simpa using hpred
    exact List.mem_map.2 ⟨r, hmem, this⟩

theorem lookupRecord_sqlUpdate_ne (c : List CacheRecord) (k k2 : String) (s : Int)
    (now : String) (h : k2 ≠ k) :
    lookupRecord (sqlUpdate c k s now) k2 = lookupRecord c k2 := by
  induction c with
  | nil => rfl
  | cons r c ih =>
    simp only [sqlUpdate] at ih ⊢
    rw [List.map_cons]
    by_cases hr : r.filename = k
    · have h2 : ¬ r.filename = k2 := by intro hk; rw [hk] at hr; exact h hr
      rw [if_pos hr, lookupRecord_cons, lookupRecord_cons]
      simp only [h2, if_neg, ite_false, not_false_iff]
      exact ih
    · rw [if_neg hr, lookupRecord_cons, lookupRecord_cons]
      by_cases hr2 : r.filename = k2
      · simp [hr2]
      · simp only [hr2, if_neg, ite_false, not_false_iff]
        exact ih

theorem lookupRecord_sqlUpdate_self (c : List CacheRecord) (k : String) (s : Int)
    (now : String) :
    lookupRecord (sqlUpdate c k s now) k =
      (lookupRecord c k).map fun r => { r with size := s, updated_at := now } := by
  induction c with
  | nil => rfl
  | cons r c ih =>
    simp only [sqlUpdate] at ih ⊢
    rw [List.map_cons]
    by_cases hr : r.filename = k
    · rw [if_pos hr, lookupRecord_cons, lookupRecord_cons]
      simp [hr]
    · rw [if_neg hr, lookupRecord_cons, lookupRecord_cons]
      simp only [hr, if_neg, ite_false, not_false_iff]
      exact ih

theorem lookupRecord_sqlInsert_ne (c : List CacheRecord) (k k2 : String) (s : Int)
    (now : String) (h : k2 ≠ k) :
    lookupRecord (sqlInsert c k s now) k2 = lookupRecord c k2 := by
  have hne : ¬ (k == k2) = true := by simpa using fun hk => h hk.symm
  simp [sqlInsert, lookupRecord, List.find?_append, List.find?, hne]

theorem lookupRecord_sqlInsert_self (c : List CacheRecord) (k : String) (s : Int)
    (now : String) :
    lookupRecord (sqlInsert c k s now) k =
      some ((lookupRecord c k).getD { filename := k, size := s, updated_at := now }) := by
  simp only [sqlInsert, lookupRecord, List.find?_append]
  cases hfind : List.find? (fun r => r.filename == k) c with
  | none => simp [List.find?]
  | some r => simp

theorem lookupRecord_sqlDelete (c : List CacheRecord) (k k2 : String) :
    lookupRecord (sqlDelete c k) k2 = if k2 = k then none else lookupRecord c k2 := by
  induction c with
  | nil => simp [sqlDelete, lookupRecord]
  | cons r c ih =>
    simp only [sqlDelete] at ih ⊢
    by_cases hr : r.filename = k
    · have hb : (r.filename != k) = false := by simp [hr]
      rw [List.filter_cons, hb, if_neg Bool.false_ne_true, ih]
      by_cases hk : k2 = k
      · simp [hk]
      · have h2 : ¬ r.filename = k2 := by intro hh; rw [hh] at hr; exact hk hr
        simp [hk, lookupRecord_cons, h2]
    · have hb : (r.filename != k) = true := by simp [hr]
      rw [List.filter_cons, hb, if_pos rfl, lookupRecord_cons, ih, lookupRecord_cons]
      by_cases hr2 : r.filename = k2
      · have h2 : ¬ k2 = k := by intro hh; rw [← hr2] at hh; exact hr hh
        simp [hr2, h2]
      · simp [hr2]

theorem keys_sqlUpdate (c : List CacheRecord) (k : String) (s : Int) (now : String) :
    (sqlUpdate c k s now).map CacheRecord.filename = c.map CacheRecord.filename := by
  induction c with
  | nil => rfl
  | cons r c ih =>
    by_cases hr : r.filename = k <;> simp [sqlUpdate, hr] at ih ⊢ <;>
      simpa [sqlUpdate] using ih

theorem keys_sqlInsert (c : List CacheRecord) (k : String) (s : Int) (now : String) :
    (sqlInsert c k s now).map CacheRecord.filename = c.map CacheRecord.filename ++ [k] := by
  simp [sqlInsert]

theorem keys_sqlDelete (c : List CacheRecord) (k : String) :
    (sqlDelete c k).map CacheRecord.filename =
      (c.map CacheRecord.filename).filter (fun x => x != k) := by
  induction c with
  | nil => rfl
  | cons r c ih =>
    by_cases hr : r.filename = k
    · have h1 : ¬ (r.filename != k) = true := by simp [hr]
      simp [sqlDelete, List.filter_cons, h1] at ih ⊢
      simpa [sqlDelete] using ih
    · have h1 : (r.filename != k) = true := by simp [hr]
      simp [sqlDelete, List.filter_cons, h1] at ih ⊢
      simpa [sqlDelete] using ih

theorem listLookup_cons (p : String × Int) (l : List (String × Int)) (k : String) :
    listLookup (p :: l) k = if p.1 = k then some p.2 else listLookup l k := by
  by_cases h : p.1 = k
  · simp [listLookup, List.find?, h]
  · have hb : (p.1 == k) = false := by simp [h]
    simp [listLookup, List.find?, h, hb]

theorem listLookup_eq_none_iff (l : List (String × Int)) (k : String) :
    listLookup l k = none ↔ ∀ p ∈ l, p.1 ≠ k := by
  simp [listLookup, List.find?_eq_none]

theorem listLookup_map_pair (c : List CacheRecord) (k : String) :
    listLookup (c.map fun r => (r.filename, r.size)) k = lookupSize c k := by
  induction c with
  | nil => rfl
  | cons r c ih =>
    rw [List.map_cons, listLookup_cons, lookupSize, lookupRecord_cons]
    by_cases hr : r.filename = k
    · simp [hr]
    · simpa [hr, lookupSize] using ih

theorem mem_of_listLookup_eq_some (l : List (String × Int)) (k : String) (s : Int)
    (h : listLookup l k = some s) : (k, s) ∈ l := by
  simp only [listLookup, Option.map_eq_some'] at h
  rcases h with ⟨p, hp, hps⟩
  have hmem := List.mem_of_find?_eq_some hp
  have hpred := List.find?_some hp
  have h1 : p.1 = k := by simpa using hpred
  have : p = (k, s) := by
    cases p; simp_all
  rwa [this] at hmem

theorem mem_keys_of_listLookup_eq_some (l : List (String × Int)) (k : String) (s : Int)
    (h : listLookup l k = some s) : k ∈ l.map Prod.fst := by
  exact List.mem_map.2 ⟨(k, s), mem_of_listLookup_eq_some l k s h, rfl⟩

theorem listLookup_eq_some_of_mem (l : List (String × Int)) (k : String) (s : Int)
    (hnd : (l.map Prod.fst).Nodup) (h : (k, s) ∈ l) : listLookup l k = some s := by
  induction l with
  | nil => simp at h
  | cons p l ih =>
    rw [List.map_cons] at hnd
    rw [listLookup_cons]
    rcases List.mem_cons.1 h with hh | hh
    · simp [← hh]
    · have hk : k ∈ l.map Prod.fst := List.mem_map.2 ⟨(k, s), hh, rfl⟩
      have hp1 : ¬ p.1 = k := by
        intro he
        exact (List.nodup_cons.1 hnd).1 (he ▸ hk)
      simp only [if_neg hp1]
      exact ih (List.nodup_cons.1 hnd).2 hh

theorem mem_iff_listLookup (l : List (String × Int)) (k : String) (s : Int)
    (hnd : (l.map Prod.fst).Nodup) : (k, s) ∈ l ↔ listLookup l k = some s :=
  ⟨listLookup_eq_some_of_mem l k s hnd, mem_of_listLookup_eq_some l k s⟩

theorem foldl_dictInsert (l acc : List (String × Int))
    (hdis : ∀ k ∈ l.map Prod.fst, k ∉ acc.map Prod.fst)
    (hnd : (l.map Prod.fst).Nodup) :
    l.foldl (fun d p => dictInsert d p.1 p.2) acc = acc ++ l := by
  induction l generalizing acc with
  | nil => simp
  | cons p l ih =>
    rw [List.map_cons] at hnd
    have hp : p.1 ∉ acc.map Prod.fst := hdis p.1 (by simp)
    have hany : ¬ (acc.any fun q => q.1 == p.1) = true := by
      simp only [List.any_eq_true, beq_iff_eq, not_exists, not_and]
      intro q hq hq1
      exact hp (List.mem_map.2 ⟨q, hq, hq1⟩)
    have hstep : dictInsert acc p.1 p.2 = acc ++ [(p.1, p.2)] := by
      simp [dictInsert, hany]
    rw [List.foldl_cons, hstep, ih (acc ++ [(p.1, p.2)])]
    · simp
    · intro k hk
      have hkl : k ∈ l.map Prod.fst := hk
      have hkp : k ≠ p.1 := by
        intro he
        exact (List.nodup_cons.1 hnd).1 (he ▸ hkl)
      simp only [List.map_append, List.mem_append]
      rintro (h | h)
      · exact hdis k (by simp [hkl]) h
      · simp at h
        exact hkp h
    · exact (List.nodup_cons.1 hnd).2

theorem dictOf_eq_self (l : List (String × Int)) (hnd : (l.map Prod.fst).Nodup) :
    dictOf l = l := by
  simpa [dictOf] using foldl_dictInsert l [] (by simp) hnd

theorem phase1_cons_update (existing : List (String × Int)) (now : String) (k : String)
    (s s0 : Int) (rest : List (String × Int)) (cache : List CacheRecord)
    (hex : listLookup existing k = some s0) (hs : s0 ≠ s) :
    phase1 existing now ((k, s) :: rest) cache =
      ((phase1 existing now rest (sqlUpdate cache k s now)).1,
        Mutation.update k s :: (phase1 existing now rest (sqlUpdate cache k s now)).2) := by
  simp [phase1, hex, hs]

theorem phase1_cons_skip (existing : List (String × Int)) (now : String) (k : String)
    (s s0 : Int) (rest : List (String × Int)) (cache : List CacheRecord)
    (hex : listLookup existing k = some s0) (hs : s0 = s) :
    phase1 existing now ((k, s) :: rest) cache = phase1 existing now rest cache := by
  simp [phase1, hex, hs]

theorem phase1_cons_insert (existing : List (String × Int)) (now : String) (k : String)
    (s : Int) (rest : List (String × Int)) (cache : List CacheRecord)
    (hex : listLookup existing k = none) :
    phase1 existing now ((k, s) :: rest) cache =
      ((phase1 existing now rest (sqlInsert cache k s now)).1,
        Mutation.insert k s :: (phase1 existing now rest (sqlInsert cache k s now)).2) := by
  simp [phase1, hex]

theorem phase2_cons_mem (cur : List String) (k : String) (rest : List String)
    (cache : List CacheRecord) (h : k ∈ cur) :
    phase2 cur (k :: rest) cache = phase2 cur rest cache := by
  simp [phase2, h]

theorem phase2_cons_del (cur : List String) (k : String) (rest : List String)
    (cache : List CacheRecord) (h : k ∉ cur) :
    phase2 cur (k :: rest) cache =
      ((phase2 cur rest (sqlDelete cache k)).1,
        Mutation.delete k :: (phase2 cur rest (sqlDelete cache k)).2) := by
  simp [phase2, h]

theorem phase1_lookupRecord_not_mem (existing : List (String × Int)) (now : String)
    (L : List (String × Int)) (cache : List CacheRecord) (k : String)
    (h : k ∉ L.map Prod.fst) :
    lookupRecord (phase1 existing now L cache).1 k = lookupRecord cache k := by
  induction L generalizing cache with
  | nil => rfl
  | cons p L ih =>
    obtain ⟨k1, s1⟩ := p
    rw [List.map_cons] at h
    have hk1 : k ≠ k1 := fun he => h (by simp [he])
    have hrest : k ∉ L.map Prod.fst := fun he => h (by simp [he])
    cases hex : listLookup existing k1 with
    | some s0 =>
      by_cases hs : s0 = s1
      · rw [phase1_cons_skip existing now k1 s1 s0 L cache hex hs]
        exact ih cache hrest
      · rw [phase1_cons_update existing now k1 s1 s0 L cache hex hs]
        have := ih (sqlUpdate cache k1 s1 now) hrest
        rw [this, lookupRecord_sqlUpdate_ne cache k1 k s1 now hk1]
    | none =>
      rw [phase1_cons_insert existing now k1 s1 L cache hex]
      have := ih (sqlInsert cache k1 s1 now) hrest
      rw [this, lookupRecord_sqlInsert_ne cache k1 k s1 now hk1]

theorem phase1_lookupSize_mem (existing : List (String × Int)) (now : String)
    (L : List (String × Int)) (cache : List CacheRecord) (k : String) (s : Int)
    (hnd : (L.map Prod.fst).Nodup) (hk : listLookup L k = some s)
    (hex : lookupSize cache k = listLookup existing k) :
    lookupSize (phase1 existing now L cache).1 k = some s := by
  induction L generalizing cache with
  | nil => simp [listLookup] at hk
  | cons p L ih =>
    obtain ⟨k1, s1⟩ := p
    rw [List.map_cons] at hnd
    rw [listLookup_cons] at hk
    by_cases hk1 : k1 = k
    · subst hk1
      rw [if_pos rfl] at hk
      injection hk with hs1
      subst hs1
      have hnotin : k1 ∉ L.map Prod.fst := (List.nodup_cons.1 hnd).1
      cases hex2 : listLookup existing k1 with
      | some s0 =>
        by_cases hs : s0 = s1
        · rw [phase1_cons_skip existing now k1 s1 s0 L cache hex2 hs]
          simp only [lookupSize] at hex ⊢
          rw [phase1_lookupRecord_not_mem existing now L cache k1 hnotin, hex, hex2, hs]
        · rw [phase1_cons_update existing now k1 s1 s0 L cache hex2 hs]
          simp only [lookupSize] at hex ⊢
          rw [phase1_lookupRecord_not_mem existing now L (sqlUpdate cache k1 s1 now) k1 hnotin,
            lookupRecord_sqlUpdate_self]
          have hc : (lookupRecord cache k1).map (·.size) = some s0 := by
            rw [hex, hex2]
          rcases Option.map_eq_some'.1 hc with ⟨r, hr, hrs⟩
          rw [hr]
          simp
      | none =>
        rw [phase1_cons_insert existing now k1 s1 L cache hex2]
        simp only [lookupSize] at hex ⊢
        rw [phase1_lookupRecord_not_mem existing now L (sqlInsert cache k1 s1 now) k1 hnotin,
          lookupRecord_sqlInsert_self]
        have hc : (lookupRecord cache k1).map (·.size) = none := by rw [hex, hex2]
        have hrec : lookupRecord cache k1 = none := by
          cases h2 : lookupRecord cache k1 with
          | none => rfl
          | some r => rw [h2] at hc; simp at hc
        rw [hrec]
        simp
    · rw [if_neg hk1] at hk
      have hnd2 := (List.nodup_cons.1 hnd).2
      have hkne : k ≠ k1 := fun he => hk1 he.symm
      cases hex2 : listLookup existing k1 with
      | some s0 =>
        by_cases hs : s0 = s1
        · rw [phase1_cons_skip existing now k1 s1 s0 L cache hex2 hs]
          exact ih cache hnd2 hk hex
        · rw [phase1_cons_update existing now k1 s1 s0 L cache hex2 hs]
          apply ih _ hnd2 hk
          simp only [lookupSize] at hex ⊢
          rw [lookupRecord_sqlUpdate_ne cache k1 k s1 now hkne]
          exact hex
      | none =>
        rw [phase1_cons_insert existing now k1 s1 L cache hex2]
        apply ih _ hnd2 hk
        simp only [lookupSize] at hex ⊢
        rw [lookupRecord_sqlInsert_ne cache k1 k s1 now hkne]
        exact hex

theorem phase1_keys_nodup (existing : List (String × Int)) (now : String)
    (L : List (String × Int)) (cache : List CacheRecord)
    (hnd : (L.map Prod.fst).Nodup)
    (hc : (cache.map CacheRecord.filename).Nodup)
    (hsub : ∀ k ∈ L.map Prod.fst, k ∈ cache.map CacheRecord.filename →
      (listLookup existing k).isSome) :
    ((phase1 existing now L cache).1.map CacheRecord.filename).Nodup := by
  induction L generalizing cache with
  | nil => exact hc
  | cons p L ih =>
    obtain ⟨k1, s1⟩ := p
    rw [List.map_cons] at hnd
    have hnd2 := (List.nodup_cons.1 hnd).2
    have hhead := (List.nodup_cons.1 hnd).1
    cases hex : listLookup existing k1 with
    | some s0 =>
      have hsub2 : ∀ k ∈ L.map Prod.fst, k ∈ cache.map CacheRecord.filename →
          (listLookup existing k).isSome := fun k hk hkc =>
        hsub k (by simp [hk]) hkc
      by_cases hs : s0 = s1
      · rw [phase1_cons_skip existing now k1 s1 s0 L cache hex hs]
        exact ih cache hnd2 hc hsub2
      · rw [phase1_cons_update existing now k1 s1 s0 L cache hex hs]
        apply ih _ hnd2
        · rw [keys_sqlUpdate]; exact hc
        · intro k hk hkc
          rw [keys_sqlUpdate] at hkc
          exact hsub2 k hk hkc
    | none =>
      have hk1c : k1 ∉ cache.map CacheRecord.filename := by
        intro hmem
        have := hsub k1 (by simp) hmem
        rw [hex] at this
        simp at this
      rw [phase1_cons_insert existing now k1 s1 L cache hex]
      apply ih _ hnd2
      · rw [keys_sqlInsert]
        simp only [List.nodup_append, List.nodup_cons, List.nodup_nil]
        refine ⟨hc, by simp, ?_⟩
        intro a ha hb
        simp at hb
        subst hb
        exact hk1c ha
      · intro k hk hkc
        rw [keys_sqlInsert] at hkc
        rcases List.mem_append.1 hkc with hh | hh
        · exact hsub k (by simp [hk]) hh
        · simp at hh
          subst hh
          exact absurd hk hhead

theorem phase1_skip_all (existing : List (String × Int)) (now : String)
    (L : List (String × Int)) (cache : List CacheRecord)
    (h : ∀ p ∈ L, listLookup existing p.1 = some p.2) :
    phase1 existing now L cache = (cache, []) := by
  induction L generalizing cache with
  | nil => rfl
  | cons p L ih =>
    obtain ⟨k1, s1⟩ := p
    have hex : listLookup existing k1 = some s1 := h (k1, s1) (by simp)
    rw [phase1_cons_skip existing now k1 s1 s1 L cache hex rfl]
    exact ih cache (fun q hq => h q (by simp [hq]))

theorem phase2_lookupRecord_mem (cur : List String) (iter : List String)
    (cache : List CacheRecord) (k : String) (h : k ∈ cur) :
    lookupRecord (phase2 cur iter cache).1 k = lookupRecord cache k := by
  induction iter generalizing cache with
  | nil => rfl
  | cons k2 iter ih =>
    by_cases hk2 : k2 ∈ cur
    · rw [phase2_cons_mem cur k2 iter cache hk2]
      exact ih cache
    · rw [phase2_cons_del cur k2 iter cache hk2]
      have hne : k ≠ k2 := fun he => hk2 (he ▸ h)
      rw [ih (sqlDelete cache k2), lookupRecord_sqlDelete, if_neg hne]

theorem phase2_lookupRecord_not_mem_iter (cur : List String) (iter : List String)
    (cache : List CacheRecord) (k : String) (h : k ∉ iter) :
    lookupRecord (phase2 cur iter cache).1 k = lookupRecord cache k := by
  induction iter generalizing cache with
  | nil => rfl
  | cons k2 iter ih =>
    have hne : k ≠ k2 := fun he => h (by simp [he])
    have hrest : k ∉ iter := fun he => h (by simp [he])
    by_cases hk2 : k2 ∈ cur
    · rw [phase2_cons_mem cur k2 iter cache hk2]
      exact ih cache hrest
    · rw [phase2_cons_del cur k2 iter cache hk2]
      rw [ih (sqlDelete cache k2) hrest, lookupRecord_sqlDelete, if_neg hne]

theorem phase2_none_preserved (cur : List String) (iter : List String)
    (cache : List CacheRecord) (k : String) (h : lookupRecord cache k = none) :
    lookupRecord (phase2 cur iter cache).1 k = none := by
  induction iter generalizing cache with
  | nil => exact h
  | cons k2 iter ih =>
    by_cases hk2 : k2 ∈ cur
    · rw [phase2_cons_mem cur k2 iter cache hk2]
      exact ih cache h
    · rw [phase2_cons_del cur k2 iter cache hk2]
      apply ih
      rw [lookupRecord_sqlDelete]
      by_cases he : k = k2
      · simp [he]
      · rw [if_neg he]; exact h

theorem phase2_lookupRecord_deleted (cur : List String) (iter : List String)
    (cache : List CacheRecord) (k : String) (hk : k ∉ cur) (hmem : k ∈ iter) :
    lookupRecord (phase2 cur iter cache).1 k = none := by
  induction iter generalizing cache with
  | nil => simp at hmem
  | cons k2 iter ih =>
    by_cases he : k = k2
    · subst he
      rw [phase2_cons_del cur k iter cache hk]
      apply phase2_none_preserved
      rw [lookupRecord_sqlDelete, if_pos rfl]
    · have hrest : k ∈ iter := by
        rcases List.mem_cons.1 hmem with hh | hh
        · exact absurd hh he
        · exact hh
      by_cases hk2 : k2 ∈ cur
      · rw [phase2_cons_mem cur k2 iter cache hk2]
        exact ih cache hrest
      · rw [phase2_cons_del cur k2 iter cache hk2]
        exact ih (sqlDelete cache k2) hrest

theorem phase2_keys_nodup (cur : List String) (iter : List String)
    (cache : List CacheRecord) (hc : (cache.map CacheRecord.filename).Nodup) :
    ((phase2 cur iter cache).1.map CacheRecord.filename).Nodup := by
  induction iter generalizing cache with
  | nil => exact hc
  | cons k2 iter ih =>
    by_cases hk2 : k2 ∈ cur
    · rw [phase2_cons_mem cur k2 iter cache hk2]
      exact ih cache hc
    · rw [phase2_cons_del cur k2 iter cache hk2]
      apply ih
      rw [keys_sqlDelete]
      exact List.Nodup.filter _ hc

theorem phase2_skip_all (cur : List String) (iter : List String)
    (cache : List CacheRecord) (h : ∀ k ∈ iter, k ∈ cur) :
    phase2 cur iter cache = (cache, []) := by
  induction iter generalizing cache with
  | nil => rfl
  | cons k2 iter ih =>
    rw [phase2_cons_mem cur k2 iter cache (h k2 (by simp))]
    exact ih cache (fun k hk => h k (by simp [hk]))

theorem exists_mem_of_mem_keys (l : List (String × Int)) (k : String)
    (h : k ∈ l.map Prod.fst) : ∃ s, (k, s) ∈ l := by
  rcases List.mem_map.1 h with ⟨p, hp, hp1⟩
  refine ⟨p.2, ?_⟩
  have : p = (k, p.2) := by cases p; simp_all
  rwa [this] at hp

theorem keys_map_pair (cache : List CacheRecord) :
    (cache.map fun r => (r.filename, r.size)).map Prod.fst = cache.map CacheRecord.filename := by
  simp [List.map_map, Function.comp]

theorem phase1_lookupRecord_frame (existing : List (String × Int)) (now : String)
    (L : List (String × Int)) (cache : List CacheRecord) (k : String)
    (hnd : (L.map Prod.fst).Nodup)
    (hagree : ∀ s, listLookup L k = some s → listLookup existing k = some s) :
    lookupRecord (phase1 existing now L cache).1 k = lookupRecord cache k := by
  induction L generalizing cache with
  | nil => rfl
  | cons p L ih =>
    obtain ⟨k1, s1⟩ := p
    rw [List.map_cons] at hnd
    have hnd2 := (List.nodup_cons.1 hnd).2
    by_cases hk1 : k1 = k
    · subst hk1
      have hnotin : k1 ∉ L.map Prod.fst := (List.nodup_cons.1 hnd).1
      have hex : listLookup existing k1 = some s1 := by
        apply hagree
        rw [listLookup_cons, if_pos rfl]
      rw [phase1_cons_skip existing now k1 s1 s1 L cache hex rfl]
      exact phase1_lookupRecord_not_mem existing now L cache k1 hnotin
    · have hkne : k ≠ k1 := fun he => hk1 he.symm
      have hagree2 : ∀ s, listLookup L k = some s → listLookup existing k = some s := by
        intro s hsome
        apply hagree
        rw [listLookup_cons, if_neg hk1]
        exact hsome
      cases hex2 : listLookup existing k1 with
      | some s0 =>
        by_cases hs : s0 = s1
        · rw [phase1_cons_skip existing now k1 s1 s0 L cache hex2 hs]
          exact ih cache hnd2 hagree2
        · rw [phase1_cons_update existing now k1 s1 s0 L cache hex2 hs]
          rw [ih (sqlUpdate cache k1 s1 now) hnd2 hagree2,
            lookupRecord_sqlUpdate_ne cache k1 k s1 now hkne]
      | none =>
        rw [phase1_cons_insert existing now k1 s1 L cache hex2]
        rw [ih (sqlInsert cache k1 s1 now) hnd2 hagree2,
          lookupRecord_sqlInsert_ne cache k1 k s1 now hkne]

theorem reconcileCore_lookupSize (files : List (String × Int)) (cache : List CacheRecord)
    (now : String) (hL : (files.map Prod.fst).Nodup)
    (hC : (cache.map CacheRecord.filename).Nodup) (k : String) :
    lookupSize (reconcileCore files cache now).1 k = listLookup files k := by
  have hex_eq : dictOf (cache.map fun r => (r.filename, r.size)) =
      cache.map fun r => (r.filename, r.size) :=
    dictOf_eq_self _ (by rw [keys_map_pair]; exact hC)
  have hcur_eq : dictOf files = files := dictOf_eq_self files hL
  simp only [reconcileCore, hex_eq, hcur_eq, keys_map_pair]
  by_cases hk : k ∈ files.map Prod.fst
  · rcases exists_mem_of_mem_keys files k hk with ⟨s, hmem⟩
    have hsome : listLookup files k = some s := listLookup_eq_some_of_mem files k s hL hmem
    have h1 : lookupSize (phase1 (cache.map fun r => (r.filename, r.size)) now files cache).1 k
        = some s := by
      apply phase1_lookupSize_mem _ _ _ _ _ _ hL hsome
      rw [listLookup_map_pair]
    simp only [lookupSize] at h1 ⊢
    rw [phase2_lookupRecord_mem _ _ _ _ hk, h1, hsome]
  · have hnone : listLookup files k = none := by
      rw [listLookup_eq_none_iff]
      intro p hp hp1
      exact hk (List.mem_map.2 ⟨p, hp, hp1⟩)
    have h1 : lookupRecord (phase1 (cache.map fun r => (r.filename, r.size)) now files cache).1 k
        = lookupRecord cache k :=
      phase1_lookupRecord_not_mem _ now files cache k hk
    simp only [lookupSize]
    rw [hnone]
    by_cases hkc : k ∈ cache.map CacheRecord.filename
    · rw [phase2_lookupRecord_deleted (files.map Prod.fst) _ _ k hk hkc]
      rfl
    · rw [phase2_lookupRecord_not_mem_iter (files.map Prod.fst) _ _ k hkc, h1]
      have : lookupRecord cache k = none := by
        by_contra hne
        exact hkc ((mem_keys_iff_lookupRecord cache k).2 hne)
      rw [this]
      rfl

theorem reconcileCore_keys_nodup (files : List (String × Int)) (cache : List CacheRecord)
    (now : String) (hL : (files.map Prod.fst).Nodup)
    (hC : (cache.map CacheRecord.filename).Nodup) :
    ((reconcileCore files cache now).1.map CacheRecord.filename).Nodup := by
  have hex_eq : dictOf (cache.map fun r => (r.filename, r.size)) =
      cache.map fun r => (r.filename, r.size) :=
    dictOf_eq_self _ (by rw [keys_map_pair]; exact hC)
  have hcur_eq : dictOf files = files := dictOf_eq_self files hL
  simp only [reconcileCore, hex_eq, hcur_eq, keys_map_pair]
  apply phase2_keys_nodup
  apply phase1_keys_nodup _ _ _ _ hL hC
  intro k hk hkc
  rw [listLookup_map_pair]
  have hne : lookupRecord cache k ≠ none := (mem_keys_iff_lookupRecord cache k).1 hkc
  simp only [lookupSize]
  rcases Option.ne_none_iff_exists.1 hne with ⟨r, hr⟩
  rw [← hr]
  rfl

theorem reconcileCore_self (L : List (String × Int)) (res : List CacheRecord) (now2 : String)
    (hL : (L.map Prod.fst).Nodup) (hresnd : (res.map CacheRecord.filename).Nodup)
    (hlook : ∀ k, lookupSize res k = listLookup L k) :
    reconcileCore L res now2 = (res, []) := by
  have hex_eq : dictOf (res.map fun r => (r.filename, r.size)) =
      res.map fun r => (r.filename, r.size) :=
    dictOf_eq_self _ (by rw [keys_map_pair]; exact hresnd)
  have hcur_eq : dictOf L = L := dictOf_eq_self L hL
  simp only [reconcileCore, hex_eq, hcur_eq, keys_map_pair]
  have h1 : phase1 (res.map fun r => (r.filename, r.size)) now2 L res = (res, []) := by
    apply phase1_skip_all
    intro p hp
    rw [listLookup_map_pair, hlook p.1]
    apply listLookup_eq_some_of_mem L p.1 p.2 hL
    cases p
    exact hp
  have h2 : phase2 (L.map Prod.fst) (res.map CacheRecord.filename) res = (res, []) := by
    apply phase2_skip_all
    intro k hk
    have hne := (mem_keys_iff_lookupRecord res k).1 hk
    have hsz : lookupSize res k ≠ none := by
      simp only [lookupSize]
      intro hcon
      exact hne (Option.map_eq_none'.1 hcon)
    rw [hlook k] at hsz
    rcases Option.ne_none_iff_exists.1 hsz with ⟨s, hs⟩
    exact mem_keys_of_listLookup_eq_some L k s hs.symm
  rw [h1]
  simp [h2]

/-- C1: Convergence of reconciliation — for every remote listing `L` (unique
keys, as S3 guarantees) and every prior cache whose primary key is respected,
a successful `update_local_database` run leaves the cache holding exactly the
`(identity, size)` pairs of `L`: absent remote identities are deleted, new
ones inserted, and the sizes agree with the remote ones. -/
theorem reconcile_convergence (L : List (String × Int)) (cache : List CacheRecord)
    (now : String) (out : List CacheRecord × List Mutation)
    (hL : (L.map Prod.fst).Nodup) (hC : (cache.map CacheRecord.filename).Nodup)
    (hrun : update_local_database (ListResult.ok L) cache now = Except.ok out) :
    ∀ p : String × Int, p ∈ out.1.map (fun r => (r.filename, r.size)) ↔ p ∈ L := by
  have hout : out = reconcileCore L cache now := by
    simp only [update_local_database] at hrun
    exact (Except.ok.inj hrun).symm
  subst hout
  intro p
  obtain ⟨k, s⟩ := p
  have hnd : (((reconcileCore L cache now).1.map fun r => (r.filename, r.size)).map
      Prod.fst).Nodup := by
    rw [keys_map_pair]
    exact reconcileCore_keys_nodup L cache now hL hC
  rw [mem_iff_listLookup _ k s hnd, listLookup_map_pair,
    reconcileCore_lookupSize L cache now hL hC k, mem_iff_listLookup L k s hL]

theorem reconcile_convergence_witness :
    ((([("dev1/a.txt", (10 : Int))]).map Prod.fst).Nodup
      ∧ (([] : List CacheRecord).map CacheRecord.filename).Nodup)
    ∧ ((("dev1/a.txt", (10 : Int)) ∈
          (([⟨"dev1/a.txt", 10, "t0"⟩] : List CacheRecord).map fun r => (r.filename, r.size)))
        ↔ ("dev1/a.txt", (10 : Int)) ∈ [("dev1/a.txt", (10 : Int))]) :=
  ⟨⟨by decide, by decide⟩,
    reconcile_convergence [("dev1/a.txt", 10)] [] "t0"
      ([⟨"dev1/a.txt", 10, "t0"⟩], [Mutation.insert "dev1/a.txt" 10])
      (by decide) (by decide) rfl ("dev1/a.txt", 10)⟩

/-- C3: Error handling of `update_local_database` — the distinguished
`AllAccessDisabled` client error makes the call return normally with the
cache untouched and no mutation issued, while every other client error code
from the listing fetch propagates uncaught to the caller. -/
theorem reconcile_access_disabled (cache : List CacheRecord) (now : String) :
    update_local_database (ListResult.clientError "AllAccessDisabled") cache now
        = Except.ok (cache, [])
    ∧ ∀ code : String, code ≠ "AllAccessDisabled" →
        update_local_database (ListResult.clientError code) cache now = Except.error code := by
  constructor
  · simp [update_local_database]
  · intro code hcode
    simp [update_local_database, hcode]

theorem reconcile_access_disabled_witness :
    (update_local_database (ListResult.clientError "AllAccessDisabled")
        [⟨"a/f", 1, "t"⟩] "t1" = Except.ok ([⟨"a/f", 1, "t"⟩], []))
    ∧ update_local_database (ListResult.clientError "Boom") [⟨"a/f", 1, "t"⟩] "t1"
        = Except.error "Boom" :=
  ⟨(reconcile_access_disabled [⟨"a/f", 1, "t"⟩] "t1").1,
    (reconcile_access_disabled [⟨"a/f", 1, "t"⟩] "t1").2 "Boom" (by decide)⟩

/-- C6: Idempotence of reconciliation — running `update_local_database` a
second time immediately after a successful run, with the remote listing
unchanged, performs no insert, no update and no delete: the mutation log of
the second run is empty and the cache is returned unchanged. -/
theorem reconcile_idempotent (L : List (String × Int)) (cache : List CacheRecord)
    (now now2 : String) (out : List CacheRecord × List Mutation)
    (hL : (L.map Prod.fst).Nodup) (hC : (cache.map CacheRecord.filename).Nodup)
    (hrun : update_local_database (ListResult.ok L) cache now = Except.ok out) :
    update_local_database (ListResult.ok L) out.1 now2 = Except.ok (out.1, []) := by
  have hout : out = reconcileCore L cache now := by
    simp only [update_local_database] at hrun
    exact (Except.ok.inj hrun).symm
  subst hout
  simp only [update_local_database]
  rw [reconcileCore_self L (reconcileCore L cache now).1 now2 hL
    (reconcileCore_keys_nodup L cache now hL hC)
    (reconcileCore_lookupSize L cache now hL hC)]

theorem reconcile_idempotent_witness :
    update_local_database (ListResult.ok [("dev1/a.txt", (10 : Int))])
        ([⟨"dev1/a.txt", 10, "t0"⟩] : List CacheRecord) "t1"
      = Except.ok ([⟨"dev1/a.txt", 10, "t0"⟩], []) :=
  reconcile_idempotent [("dev1/a.txt", 10)] [] "t0" "t1"
    ([⟨"dev1/a.txt", 10, "t0"⟩], [Mutation.insert "dev1/a.txt" 10])
    (by decide) (by decide) rfl

/-- C7: Frame condition on matching records — an identity present in the
remote listing and in the cache with the same size keeps its `CacheRecord`
entirely untouched by `update_local_database`: neither its size nor its
`updated_at` timestamp is rewritten. -/
theorem reconcile_frame_untouched (L : List (String × Int)) (cache : List CacheRecord)
    (now : String) (out : List CacheRecord × List Mutation) (k : String) (s : Int)
    (hL : (L.map Prod.fst).Nodup) (hC : (cache.map CacheRecord.filename).Nodup)
    (hrun : update_local_database (ListResult.ok L) cache now = Except.ok out)
    (hmem : (k, s) ∈ L) (hsz : lookupSize cache k = some s) :
    lookupRecord out.1 k = lookupRecord cache k := by
  have hout : out = reconcileCore L cache now := by
    simp only [update_local_database] at hrun
    exact (Except.ok.inj hrun).symm
  subst hout
  have hex_eq : dictOf (cache.map fun r => (r.filename, r.size)) =
      cache.map fun r => (r.filename, r.size) :=
    dictOf_eq_self _ (by rw [keys_map_pair]; exact hC)
  have hcur_eq : dictOf L = L := dictOf_eq_self L hL
  simp only [reconcileCore, hex_eq, hcur_eq, keys_map_pair]
  have hcur : k ∈ L.map Prod.fst := List.mem_map.2 ⟨(k, s), hmem, rfl⟩
  rw [phase2_lookupRecord_mem _ _ _ _ hcur]
  apply phase1_lookupRecord_frame _ _ _ _ _ hL
  intro s2 hs2
  have hlk : listLookup L k = some s := listLookup_eq_some_of_mem L k s hL hmem
  rw [hlk] at hs2
  injection hs2 with hs2
  rw [listLookup_map_pair, hsz, hs2]

theorem reconcile_frame_untouched_witness :
    lookupRecord
        (update_local_database (ListResult.ok [("a/f", (7 : Int))])
            ([⟨"a/f", 7, "old"⟩] : List CacheRecord) "new").toOption.get!.1 "a/f"
      = lookupRecord ([⟨"a/f", 7, "old"⟩] : List CacheRecord) "a/f" :=
  reconcile_frame_untouched [("a/f", 7)] [⟨"a/f", 7, "old"⟩] "new"
    ([⟨"a/f", 7, "old"⟩], []) "a/f" 7 (by decide) (by decide) rfl (by decide) (by decide)

/-- C2: Decision correctness — `needFile` is `True` exactly when no row of
`s3_files` carries the queried identity with exactly the queried size, it is
`False` immediately after an `INSERT OR REPLACE` of that identity and size,
and (being a plain SELECT modelled as a pure read) it leaves the cache
untouched; the third conjunct ties the pure check to the full `needFile`
entry point. -/
theorem needs_upload_correct (id : String) (s : Int) (cache : List CacheRecord) (ts : String) :
    (needFileCheck id s cache = true ↔ ¬ ∃ r ∈ cache, r.filename = id ∧ r.size = s)
    ∧ needFileCheck id s (insertOrReplace cache id s ts) = false
    ∧ ∀ rule : String, ∀ t : Now, ∀ mac fn : String,
        build_s3_filename rule t mac fn = Except.ok id →
        needFile rule t mac fn s cache = Except.ok (needFileCheck id s cache) := by
  refine ⟨?_, ?_, ?_⟩
  · rw [needFileCheck, Option.isNone_iff_eq_none, List.find?_eq_none]
    constructor
    · rintro h ⟨r, hr, h1, h2⟩
      exact h r hr (by simp [h1, h2])
    · intro h r hr hb
      simp only [Bool.and_eq_true, beq_iff_eq] at hb
      exact h ⟨r, hr, hb.1, hb.2⟩
  · simp only [needFileCheck, insertOrReplace, List.find?_append]
    cases hf : List.find? (fun r => r.filename == id && r.size == s)
        (cache.filter fun r => r.filename != id) with
    | none => simp [List.find?]
    | some r => simp
  · intro rule t mac fn hb
    simp only [needFile, hb]
    rfl

theorem needs_upload_correct_witness :
    (needFileCheck "m/f" 3 [] = true ↔
      ¬ ∃ r ∈ ([] : List CacheRecord), r.filename = "m/f" ∧ r.size = 3)
    ∧ needFileCheck "m/f" 3 (insertOrReplace [] "m/f" 3 "t") = false
    ∧ needFile "never" ⟨2024, 1, 1, 0, 0, 0, 0⟩ "m" "f" 3 []
        = Except.ok (needFileCheck "m/f" 3 []) :=
  ⟨(needs_upload_correct "m/f" 3 [] "t").1, (needs_upload_correct "m/f" 3 [] "t").2.1,
    (needs_upload_correct "m/f" 3 [] "t").2.2 "never" ⟨2024, 1, 1, 0, 0, 0, 0⟩ "m" "f" rfl⟩

/-- C9: Configuration error on bad granularity — every `DT_RULE` value inside
the enumerated set makes `format_datetime` (and hence `build_s3_filename`)
return normally, and every value outside it raises the `ValueError` at call
time. -/
theorem granularity_validation (rule : String) (t : Now) (mac filename : String) :
    (rule ∈ ["seconds", "hours", "days", "weeks", "months", "years", "never"] →
      ∃ s, format_datetime rule t = Except.ok s
        ∧ build_s3_filename rule t mac filename = Except.ok (s3NameOfBucket s mac filename))
    ∧ (rule ∉ ["seconds", "hours", "days", "weeks", "months", "years", "never"] →
      format_datetime rule t = Except.error "Invalid DT_RULE value"
      ∧ build_s3_filename rule t mac filename = Except.error "Invalid DT_RULE value") := by
  constructor
  · intro hmem
    simp only [List.mem_cons, List.not_mem_nil, or_false] at hmem
    rcases hmem with h | h | h | h | h | h | h <;> subst h <;> exact ⟨_, rfl, rfl⟩
  · intro hmem
    simp only [List.mem_cons, List.not_mem_nil, or_false, not_or] at hmem
    obtain ⟨h1, h2, h3, h4, h5, h6, h7⟩ := hmem
    have hf : format_datetime rule t = Except.error "Invalid DT_RULE value" := by
      simp [format_datetime, h1, h2, h3, h4, h5, h6, h7]
    exact ⟨hf, by simp [build_s3_filename, hf, Except.map]⟩

theorem granularity_validation_witness :
    (∃ s, format_datetime "days" ⟨2024, 5, 6, 7, 8, 9, 18⟩ = Except.ok s
      ∧ build_s3_filename "days" ⟨2024, 5, 6, 7, 8, 9, 18⟩ "m" "f"
          = Except.ok (s3NameOfBucket s "m" "f"))
    ∧ (format_datetime "fortnights" ⟨2024, 5, 6, 7, 8, 9, 18⟩
          = Except.error "Invalid DT_RULE value"
      ∧ build_s3_filename "fortnights" ⟨2024, 5, 6, 7, 8, 9, 18⟩ "m" "f"
          = Except.error "Invalid DT_RULE value") :=
  ⟨(granularity_validation "days" ⟨2024, 5, 6, 7, 8, 9, 18⟩ "m" "f").1 (by decide),
    (granularity_validation "fortnights" ⟨2024, 5, 6, 7, 8, 9, 18⟩ "m" "f").2 (by decide)⟩

theorem uploadStep_ok_mem (rule : String) (committed txn : List CacheRecord) (e : FileEntry)
    (txn2 : List CacheRecord) (h : uploadStep rule committed txn e = Except.ok txn2) :
    ∀ r ∈ txn2, r ∈ txn ∨ (e.upload_ok = true ∧ r.size = e.size ∧ r.updated_at = e.ts
      ∧ build_s3_filename rule e.t_key e.mac e.filename = Except.ok r.filename) := by
  intro r hr
  unfold uploadStep at h
  cases hn : needFile rule e.t_need e.mac e.filename e.size committed with
  | error msg => rw [hn] at h; simp at h
  | ok need =>
    rw [hn] at h
    by_cases hneed : need = true
    · subst hneed
      simp only [if_true] at h
      cases hb : build_s3_filename rule e.t_key e.mac e.filename with
      | error m => rw [hb] at h; simp at h
      | ok key =>
        rw [hb] at h
        by_cases hup : e.upload_ok = true
        · simp only [hup, if_true] at h
          have htxn : txn2 = insertOrReplace txn key e.size e.ts := (Except.ok.inj h).symm
          subst htxn
          rcases List.mem_append.1 hr with hh | hh
          · exact Or.inl (List.mem_of_mem_filter hh)
          · simp only [List.mem_singleton] at hh
            subst hh
            exact Or.inr ⟨hup, rfl, rfl, rfl⟩
        · have hup2 : e.upload_ok = false := by
            cases hx : e.upload_ok
            · rfl
            · exact absurd hx hup
          simp only [hup2, if_false] at h
          simp at h
    · have hneed2 : need = false := by
        cases hx : need
        · rfl
        · exact absurd hx hneed
      subst hneed2
      simp only [if_false] at h
      have : txn2 = txn := (Except.ok.inj h).symm
      subst this
      exact Or.inl hr

theorem uploadLoop_ok_mem (rule : String) (committed : List CacheRecord)
    (entries : List FileEntry) (txn txn2 : List CacheRecord)
    (h : uploadLoop rule committed entries txn = Except.ok txn2) :
    ∀ r ∈ txn2, r ∈ txn ∨ ∃ e ∈ entries, e.upload_ok = true ∧ r.size = e.size
      ∧ r.updated_at = e.ts
      ∧ build_s3_filename rule e.t_key e.mac e.filename = Except.ok r.filename := by
  induction entries generalizing txn with
  | nil =>
    simp only [uploadLoop] at h
    have : txn2 = txn := (Except.ok.inj h).symm
    subst this
    exact fun r hr => Or.inl hr
  | cons e rest ih =>
    simp only [uploadLoop] at h
    cases hs : uploadStep rule committed txn e with
    | error msg => rw [hs] at h; simp at h
    | ok txn1 =>
      rw [hs] at h
      intro r hr
      rcases ih txn1 h r hr with hh | ⟨e2, he2, hprop⟩
      · rcases uploadStep_ok_mem rule committed txn e txn1 hs r hh with h1 | h2
        · exact Or.inl h1
        · exact Or.inr ⟨e, by simp, h2.1, h2.2.1, h2.2.2.1, h2.2.2.2⟩
      · exact Or.inr ⟨e2, by simp [he2], hprop⟩

/-- C8: Upload-path atomicity — a record enters the transaction of
`upload_files` only for a file whose transfer succeeded (with the key it was
uploaded under), and when an upload failure aborts the run the propagated
error leaves the durable cache exactly as it was before the call, because
`conn.commit()` runs only after the whole loop. -/
theorem upload_atomicity (rule : String) (entries : List FileEntry)
    (committed : List CacheRecord) :
    (∀ msg, (upload_files rule entries committed).2 = some msg →
      (upload_files rule entries committed).1 = committed)
    ∧ ((upload_files rule entries committed).2 = none →
      ∀ r ∈ (upload_files rule entries committed).1,
        r ∈ committed ∨ ∃ e ∈ entries, e.upload_ok = true ∧ r.size = e.size
          ∧ r.updated_at = e.ts
          ∧ build_s3_filename rule e.t_key e.mac e.filename = Except.ok r.filename) := by
  cases hloop : uploadLoop rule committed entries committed with
  | error msg =>
    constructor
    · intro m hm
      simp [upload_files, hloop]
    · intro hnone
      simp [upload_files, hloop] at hnone
  | ok txn =>
    constructor
    · intro m hm
      simp [upload_files, hloop] at hm
    · intro hnone r hr
      simp only [upload_files, hloop] at hr
      exact uploadLoop_ok_mem rule committed entries committed txn hloop r hr

theorem upload_atomicity_witness :
    (upload_files "never" [⟨"dev1", "a.txt", 5, ⟨2024, 1, 1, 0, 0, 0, 0⟩,
        ⟨2024, 1, 1, 0, 0, 0, 0⟩, "ts", false⟩] []).1 = [] :=
  (upload_atomicity "never" [⟨"dev1", "a.txt", 5, ⟨2024, 1, 1, 0, 0, 0, 0⟩,
      ⟨2024, 1, 1, 0, 0, 0, 0⟩, "ts", false⟩] []).1 "upload failed" rfl

/-- C10: Decision/upload identity agreement — within one file iteration the
time bucket is computed once inside `needFile` and once for the upload key;
whenever the two computations render the same bucket (and the second conjunct
shows this always holds for granularity "never"), the identity tested by the
decision is exactly the key under which the file is uploaded and recorded by
INSERT OR REPLACE. -/
theorem decision_upload_key_agreement (rule : String) (e : FileEntry)
    (committed txn txn2 : List CacheRecord)
    (hfmt : format_datetime rule e.t_need = format_datetime rule e.t_key)
    (hstep : uploadStep rule committed txn e = Except.ok txn2)
    (hchanged : txn2 ≠ txn) :
    (∃ key, build_s3_filename rule e.t_need e.mac e.filename = Except.ok key
      ∧ needFile rule e.t_need e.mac e.filename e.size committed
          = Except.ok (needFileCheck key e.size committed)
      ∧ txn2 = insertOrReplace txn key e.size e.ts)
    ∧ ∀ u u2 : Now, format_datetime "never" u = format_datetime "never" u2 := by
  refine ⟨?_, fun u u2 => rfl⟩
  have hbuild_eq : build_s3_filename rule e.t_need e.mac e.filename
      = build_s3_filename rule e.t_key e.mac e.filename := by
    simp only [build_s3_filename, hfmt]
  unfold uploadStep at hstep
  cases hn : needFile rule e.t_need e.mac e.filename e.size committed with
  | error msg => rw [hn] at hstep; simp at hstep
  | ok need =>
    rw [hn] at hstep
    by_cases hneed : need = true
    · subst hneed
      simp only [if_true] at hstep
      cases hb : build_s3_filename rule e.t_key e.mac e.filename with
      | error m => rw [hb] at hstep; simp at hstep
      | ok key =>
        rw [hb] at hstep
        by_cases hup : e.upload_ok = true
        · simp only [hup, if_true] at hstep
          have hneedeval : needFile rule e.t_need e.mac e.filename e.size committed
              = Except.ok (needFileCheck key e.size committed) := by
            simp only [needFile]
            rw [hbuild_eq, hb]
            rfl
          refine ⟨key, hbuild_eq.trans hb, ?_, (Except.ok.inj hstep).symm⟩
          exact hn.symm.trans hneedeval
        · have hup2 : e.upload_ok = false := by
            cases hx : e.upload_ok
            · rfl
            · exact absurd hx hup
          simp only [hup2, if_false] at hstep
          simp at hstep
    · have hneed2 : need = false := by
        cases hx : need
        · rfl
        · exact absurd hx hneed
      subst hneed2
      simp only [if_false] at hstep
      exact absurd (Except.ok.inj hstep).symm hchanged

theorem decision_upload_key_agreement_witness :
    ∃ key, build_s3_filename "never" ⟨2024, 1, 1, 0, 0, 0, 0⟩ "m" "f" = Except.ok key
      ∧ needFile "never" ⟨2024, 1, 1, 0, 0, 0, 0⟩ "m" "f" 3 []
          = Except.ok (needFileCheck key 3 [])
      ∧ insertOrReplace [] "m/f" 3 "ts" = insertOrReplace [] key 3 "ts" :=
  have happ := decision_upload_key_agreement "never"
    ⟨"m", "f", 3, ⟨2024, 1, 1, 0, 0, 0, 0⟩, ⟨2024, 1, 1, 0, 0, 0, 0⟩, "ts", true⟩
    [] [] (insertOrReplace [] "m/f" 3 "ts") rfl rfl (by decide)
  match happ.1 with
  | ⟨key, h1, h2, h3⟩ => ⟨key, h1, h2, h3⟩

theorem str_ext (s t : String) (h : s.data = t.data) : s = t := by
  cases s
  cases t
  exact congrArg String.mk h

theorem data_mk (l : List Char) : (String.mk l).data = l := rfl

theorem ne_empty_of_ne_nil (s : String) (h : s.data ≠ []) : s ≠ "" :=
  fun he => h (by rw [he])

theorem data_slash2 (a c : String) : (a ++ "/" ++ c).data = a.data ++ '/' :: c.data := by
  have h : ("/" : String).data = ['/'] := rfl
  rw [String.data_append, String.data_append, h]
  simp [List.append_assoc]

theorem data_slash3 (a c e : String) :
    (a ++ "/" ++ c ++ "/" ++ e).data = a.data ++ '/' :: (c.data ++ '/' :: e.data) := by
  have hassoc : a ++ "/" ++ c ++ "/" ++ e = a ++ "/" ++ (c ++ "/" ++ e) := by
    apply str_ext
    simp [String.data_append]
  rw [hassoc, data_slash2, data_slash2]

theorem append_slash_inj (l1 l2 : List Char) (m1 m2 : List Char)
    (h1 : ('/' : Char) ∉ l1) (h2 : ('/' : Char) ∉ m1)
    (h : l1 ++ '/' :: l2 = m1 ++ '/' :: m2) : l1 = m1 ∧ l2 = m2 := by
  induction l1 generalizing m1 with
  | nil =>
    cases m1 with
    | nil => simpa using h
    | cons d m1 =>
      exfalso
      rw [List.nil_append, List.cons_append] at h
      injection h with hd htl
      apply h2
      rw [← hd]
      exact List.mem_cons_self _ _
  | cons c l1 ih =>
    cases m1 with
    | nil =>
      exfalso
      rw [List.nil_append, List.cons_append] at h
      injection h with hd htl
      apply h1
      rw [hd]
      exact List.mem_cons_self _ _
    | cons d m1 =>
      rw [List.cons_append, List.cons_append] at h
      injection h with hcd htl
      have h1r : ('/' : Char) ∉ l1 := fun hm => h1 (List.mem_cons_of_mem c hm)
      have h2r : ('/' : Char) ∉ m1 := fun hm => h2 (List.mem_cons_of_mem d hm)
      obtain ⟨ha, hb⟩ := ih m1 h1r h2r htl
      exact ⟨by rw [hcd, ha], hb⟩

/-- C4: Identity format and injectivity — `build_s3_filename` yields
`mac/name` when the time bucket is empty (granularity "never") and
`mac/bucket/name` otherwise, and on components free of the `/` separator two
distinct `(mac, name, bucket)` triples always produce distinct identity
strings. -/
theorem build_identity_format_injective (b mac name b2 mac2 name2 : String) (t : Now)
    (hb : slashFree b) (hmac : slashFree mac) (hname : slashFree name)
    (hb2 : slashFree b2) (hmac2 : slashFree mac2) (hname2 : slashFree name2) :
    (build_s3_filename "never" t mac name = Except.ok (mac ++ "/" ++ name))
    ∧ (b ≠ "" → s3NameOfBucket b mac name = mac ++ "/" ++ b ++ "/" ++ name)
    ∧ (s3NameOfBucket b mac name = s3NameOfBucket b2 mac2 name2 →
        mac = mac2 ∧ name = name2 ∧ b = b2) := by
  refine ⟨rfl, ?_, ?_⟩
  · intro hne
    simp [s3NameOfBucket, hne]
  · intro h
    simp only [s3NameOfBucket] at h
    by_cases he : b = "" <;> by_cases he2 : b2 = ""
    · rw [if_neg (by simp [he]), if_neg (by simp [he2])] at h
      have hd := congrArg String.data h
      rw [data_slash2, data_slash2] at hd
      obtain ⟨hm, hn⟩ := append_slash_inj mac.data name.data mac2.data name2.data hmac hmac2 hd
      exact ⟨str_ext _ _ hm, str_ext _ _ hn, by rw [he, he2]⟩
    · exfalso
      rw [if_neg (by simp [he]), if_pos he2] at h
      have hd := congrArg String.data h
      rw [data_slash2, data_slash3] at hd
      obtain ⟨hm, hn⟩ := append_slash_inj mac.data name.data mac2.data
        (b2.data ++ '/' :: name2.data) hmac hmac2 hd
      apply hname
      rw [hn]
      exact List.mem_append_right _ (List.mem_cons_self _ _)
    · exfalso
      rw [if_pos he, if_neg (by simp [he2])] at h
      have hd := congrArg String.data h
      rw [data_slash3, data_slash2] at hd
      obtain ⟨hm, hn⟩ := append_slash_inj mac.data (b.data ++ '/' :: name.data) mac2.data
        name2.data hmac hmac2 hd
      apply hname2
      rw [← hn]
      exact List.mem_append_right _ (List.mem_cons_self _ _)
    · rw [if_pos he, if_pos he2] at h
      have hd := congrArg String.data h
      rw [data_slash3, data_slash3] at hd
      obtain ⟨hm, hrest⟩ := append_slash_inj mac.data (b.data ++ '/' :: name.data) mac2.data
        (b2.data ++ '/' :: name2.data) hmac hmac2 hd
      obtain ⟨hbb, hn⟩ := append_slash_inj b.data name.data b2.data name2.data hb hb2 hrest
      exact ⟨str_ext _ _ hm, str_ext _ _ hn, str_ext _ _ hbb⟩

theorem build_identity_format_injective_witness :
    (slashFree "20240101" ∧ slashFree "dev1" ∧ slashFree "a.txt" ∧ slashFree "")
    ∧ (build_s3_filename "never" ⟨2024, 1, 1, 0, 0, 0, 0⟩ "dev1" "a.txt"
        = Except.ok ("dev1" ++ "/" ++ "a.txt"))
    ∧ ("20240101" ≠ "" → s3NameOfBucket "20240101" "dev1" "a.txt"
        = "dev1" ++ "/" ++ "20240101" ++ "/" ++ "a.txt")
    ∧ (s3NameOfBucket "20240101" "dev1" "a.txt" = s3NameOfBucket "" "dev1" "a.txt" →
        "dev1" = "dev1" ∧ "a.txt" = "a.txt" ∧ "20240101" = "") :=
  have happ := build_identity_format_injective "20240101" "dev1" "a.txt" "" "dev1" "a.txt"
    ⟨2024, 1, 1, 0, 0, 0, 0⟩ (by decide) (by decide) (by decide) (by decide) (by decide)
    (by decide)
  ⟨⟨by decide, by decide, by decide, by decide⟩, happ.1, happ.2.1, happ.2.2⟩

theorem digitChar_inj10 : ∀ a b : Fin 10, digitChar a.val = digitChar b.val → a = b := by
  decide

theorem digitChar_mod_inj (a b : Nat) (h : digitChar (a % 10) = digitChar (b % 10)) :
    a % 10 = b % 10 := by
  have ha : a % 10 < 10 := Nat.mod_lt _ (by norm_num)
  have hb2 : b % 10 < 10 := Nat.mod_lt _ (by norm_num)
  have hfin := digitChar_inj10 ⟨a % 10, ha⟩ ⟨b % 10, hb2⟩ h
  exact congrArg Fin.val hfin

theorem digitChar_ne_slash (n : Nat) : digitChar n ≠ '/' := by
  unfold digitChar
  split <;> decide

theorem pad4_inj (a b : Nat) (ha : a < 10000) (hb2 : b < 10000) (h : pad4 a = pad4 b) :
    a = b := by
  have hdat := congrArg String.data h
  simp only [pad4, data_mk, List.cons.injEq] at hdat
  obtain ⟨e1, e2, e3, e4, -⟩ := hdat
  have q1 := digitChar_mod_inj _ _ e1
  have q2 := digitChar_mod_inj _ _ e2
  have q3 := digitChar_mod_inj _ _ e3
  have q4 := digitChar_mod_inj _ _ e4
  omega

theorem bucket2_inj (a c a2 c2 : Nat) (ha : a < 10000) (ha2 : a2 < 10000)
    (hc : c < 100) (hc2 : c2 < 100)
    (h : pad4 a ++ pad2 c = pad4 a2 ++ pad2 c2) : a = a2 ∧ c = c2 := by
  have hdat := congrArg String.data h
  simp only [String.data_append, pad4, pad2, data_mk, List.cons_append, List.nil_append,
    List.cons.injEq] at hdat
  obtain ⟨e1, e2, e3, e4, e5, e6, -⟩ := hdat
  have q1 := digitChar_mod_inj _ _ e1
  have q2 := digitChar_mod_inj _ _ e2
  have q3 := digitChar_mod_inj _ _ e3
  have q4 := digitChar_mod_inj _ _ e4
  have q5 := digitChar_mod_inj _ _ e5
  have q6 := digitChar_mod_inj _ _ e6
  omega

theorem bucket3_inj (a c d a2 c2 d2 : Nat) (ha : a < 10000) (ha2 : a2 < 10000)
    (hc : c < 100) (hc2 : c2 < 100) (hd : d < 100) (hd2 : d2 < 100)
    (h : pad4 a ++ pad2 c ++ pad2 d = pad4 a2 ++ pad2 c2 ++ pad2 d2) :
    a = a2 ∧ c = c2 ∧ d = d2 := by
  have hdat := congrArg String.data h
  simp only [String.data_append, pad4, pad2, data_mk, List.cons_append, List.nil_append,
    List.cons.injEq] at hdat
  obtain ⟨e1, e2, e3, e4, e5, e6, e7, e8, -⟩ := hdat
  have q1 := digitChar_mod_inj _ _ e1
  have q2 := digitChar_mod_inj _ _ e2
  have q3 := digitChar_mod_inj _ _ e3
  have q4 := digitChar_mod_inj _ _ e4
  have q5 := digitChar_mod_inj _ _ e5
  have q6 := digitChar_mod_inj _ _ e6
  have q7 := digitChar_mod_inj _ _ e7
  have q8 := digitChar_mod_inj _ _ e8
  omega

theorem bucket4_inj (a c d e a2 c2 d2 e2 : Nat) (ha : a < 10000) (ha2 : a2 < 10000)
    (hc : c < 100) (hc2 : c2 < 100) (hd : d < 100) (hd2 : d2 < 100)
    (he : e < 100) (he2 : e2 < 100)
    (h : pad4 a ++ pad2 c ++ pad2 d ++ pad2 e = pad4 a2 ++ pad2 c2 ++ pad2 d2 ++ pad2 e2) :
    a = a2 ∧ c = c2 ∧ d = d2 ∧ e = e2 := by
  have hdat := congrArg String.data h
  simp only [String.data_append, pad4, pad2, data_mk, List.cons_append, List.nil_append,
    List.cons.injEq] at hdat
  obtain ⟨e1, e2x, e3, e4, e5, e6, e7, e8, e9, e10, -⟩ := hdat
  have q1 := digitChar_mod_inj _ _ e1
  have q2 := digitChar_mod_inj _ _ e2x
  have q3 := digitChar_mod_inj _ _ e3
  have q4 := digitChar_mod_inj _ _ e4
  have q5 := digitChar_mod_inj _ _ e5
  have q6 := digitChar_mod_inj _ _ e6
  have q7 := digitChar_mod_inj _ _ e7
  have q8 := digitChar_mod_inj _ _ e8
  have q9 := digitChar_mod_inj _ _ e9
  have q10 := digitChar_mod_inj _ _ e10
  omega

theorem bucket6_inj (a c d e f g a2 c2 d2 e2 f2 g2 : Nat)
    (ha : a < 10000) (ha2 : a2 < 10000) (hc : c < 100) (hc2 : c2 < 100)
    (hd : d < 100) (hd2 : d2 < 100) (he : e < 100) (he2 : e2 < 100)
    (hf : f < 100) (hf2 : f2 < 100) (hg : g < 100) (hg2 : g2 < 100)
    (h : pad4 a ++ pad2 c ++ pad2 d ++ pad2 e ++ pad2 f ++ pad2 g
      = pad4 a2 ++ pad2 c2 ++ pad2 d2 ++ pad2 e2 ++ pad2 f2 ++ pad2 g2) :
    a = a2 ∧ c = c2 ∧ d = d2 ∧ e = e2 ∧ f = f2 ∧ g = g2 := by
  have hdat := congrArg String.data h
  simp only [String.data_append, pad4, pad2, data_mk, List.cons_append, List.nil_append,
    List.cons.injEq] at hdat
  obtain ⟨e1, e2x, e3, e4, e5, e6, e7, e8, e9, e10, e11, e12, e13, e14, -⟩ := hdat
  have q1 := digitChar_mod_inj _ _ e1
  have q2 := digitChar_mod_inj _ _ e2x
  have q3 := digitChar_mod_inj _ _ e3
  have q4 := digitChar_mod_inj _ _ e4
  have q5 := digitChar_mod_inj _ _ e5
  have q6 := digitChar_mod_inj _ _ e6
  have q7 := digitChar_mod_inj _ _ e7
  have q8 := digitChar_mod_inj _ _ e8
  have q9 := digitChar_mod_inj _ _ e9
  have q10 := digitChar_mod_inj _ _ e10
  have q11 := digitChar_mod_inj _ _ e11
  have q12 := digitChar_mod_inj _ _ e12
  have q13 := digitChar_mod_inj _ _ e13
  have q14 := digitChar_mod_inj _ _ e14
  omega

theorem s3name_inj_same (bkt bkt2 mac name : String)
    (h1 : bkt ≠ "") (h2 : bkt2 ≠ "")
    (hlen : bkt.data.length = bkt2.data.length)
    (h : s3NameOfBucket bkt mac name = s3NameOfBucket bkt2 mac name) : bkt = bkt2 := by
  simp only [s3NameOfBucket] at h
  rw [if_pos h1, if_pos h2] at h
  have hd := congrArg String.data h
  rw [data_slash3, data_slash3] at hd
  have hcancel := List.append_cancel_left hd
  injection hcancel with hx htail
  have hsplit := List.append_inj htail hlen
  exact str_ext _ _ hsplit.1

instance (rule : String) (t t2 : Now) : Decidable (sameBucket rule t t2) := by
  unfold sameBucket
  infer_instance

instance (t : Now) : Decidable t.Valid := by
  unfold Now.Valid
  infer_instance

/-- C5: Key determinism across time — with granularity "never",
`build_s3_filename` returns the same key at any two wall-clock readings,
while with any other granularity of the enumerated set two readings lying in
different buckets of that granularity (the fields its `strftime` pattern
consults differ) produce different identity strings. -/
theorem key_determinism (rule : String) (t t2 : Now) (mac name : String)
    (hv : t.Valid) (hv2 : t2.Valid)
    (hrule : rule ∈ ["seconds", "hours", "days", "weeks", "months", "years"])
    (hdiff : ¬ sameBucket rule t t2) :
    build_s3_filename rule t mac name ≠ build_s3_filename rule t2 mac name
    ∧ ∀ u u2 : Now, build_s3_filename "never" u mac name
        = build_s3_filename "never" u2 mac name := by
  refine ⟨?_, fun u u2 => rfl⟩
  obtain ⟨hy, hmo, hd, hh, hmi, hs, hw⟩ := hv
  obtain ⟨hy2, hmo2, hd2, hh2, hmi2, hs2, hw2⟩ := hv2
  intro heq
  apply hdiff
  simp only [List.mem_cons, List.not_mem_nil, or_false] at hrule
  rcases hrule with h | h | h | h | h | h <;> subst h
  · have hfmt : format_datetime "seconds" t = Except.ok (pad4 t.year ++ pad2 t.month ++
        pad2 t.day ++ pad2 t.hour ++ pad2 t.minute ++ pad2 t.second) := rfl
    have hfmt2 : format_datetime "seconds" t2 = Except.ok (pad4 t2.year ++ pad2 t2.month ++
        pad2 t2.day ++ pad2 t2.hour ++ pad2 t2.minute ++ pad2 t2.second) := rfl
    simp only [build_s3_filename, hfmt, hfmt2, Except.map] at heq
    injection heq with heq2
    have hne1 : pad4 t.year ++ pad2 t.month ++ pad2 t.day ++ pad2 t.hour ++ pad2 t.minute ++
        pad2 t.second ≠ "" :=
      ne_empty_of_ne_nil _ (by simp [String.data_append, pad4, pad2, data_mk])
    have hne2 : pad4 t2.year ++ pad2 t2.month ++ pad2 t2.day ++ pad2 t2.hour ++
        pad2 t2.minute ++ pad2 t2.second ≠ "" :=
      ne_empty_of_ne_nil _ (by simp [String.data_append, pad4, pad2, data_mk])
    have hbkt := s3name_inj_same _ _ mac name hne1 hne2 rfl heq2
    exact bucket6_inj t.year t.month t.day t.hour t.minute t.second t2.year t2.month t2.day
      t2.hour t2.minute t2.second hy hy2 hmo hmo2 hd hd2 hh hh2 hmi hmi2 hs hs2 hbkt
  · have hfmt : format_datetime "hours" t = Except.ok (pad4 t.year ++ pad2 t.month ++
        pad2 t.day ++ pad2 t.hour) := rfl
    have hfmt2 : format_datetime "hours" t2 = Except.ok (pad4 t2.year ++ pad2 t2.month ++
        pad2 t2.day ++ pad2 t2.hour) := rfl
    simp only [build_s3_filename, hfmt, hfmt2, Except.map] at heq
    injection heq with heq2
    have hne1 : pad4 t.year ++ pad2 t.month ++ pad2 t.day ++ pad2 t.hour ≠ "" :=
      ne_empty_of_ne_nil _ (by simp [String.data_append, pad4, pad2, data_mk])
    have hne2 : pad4 t2.year ++ pad2 t2.month ++ pad2 t2.day ++ pad2 t2.hour ≠ "" :=
      ne_empty_of_ne_nil _ (by simp [String.data_append, pad4, pad2, data_mk])
    have hbkt := s3name_inj_same _ _ mac name hne1 hne2 rfl heq2
    exact bucket4_inj t.year t.month t.day t.hour t2.year t2.month t2.day t2.hour
      hy hy2 hmo hmo2 hd hd2 hh hh2 hbkt
  · have hfmt : format_datetime "days" t = Except.ok (pad4 t.year ++ pad2 t.month ++
        pad2 t.day) := rfl
    have hfmt2 : format_datetime "days" t2 = Except.ok (pad4 t2.year ++ pad2 t2.month ++
        pad2 t2.day) := rfl
    simp only [build_s3_filename, hfmt, hfmt2, Except.map] at heq
    injection heq with heq2
    have hne1 : pad4 t.year ++ pad2 t.month ++ pad2 t.day ≠ "" :=
      ne_empty_of_ne_nil _ (by simp [String.data_append, pad4, pad2, data_mk])
    have hne2 : pad4 t2.year ++ pad2 t2.month ++ pad2 t2.day ≠ "" :=
      ne_empty_of_ne_nil _ (by simp [String.data_append, pad4, pad2, data_mk])
    have hbkt := s3name_inj_same _ _ mac name hne1 hne2 rfl heq2
    exact bucket3_inj t.year t.month t.day t2.year t2.month t2.day
      hy hy2 hmo hmo2 hd hd2 hbkt
  · have hfmt : format_datetime "weeks" t = Except.ok (pad4 t.year ++ pad2 t.week) := rfl
    have hfmt2 : format_datetime "weeks" t2 = Except.ok (pad4 t2.year ++ pad2 t2.week) := rfl
    simp only [build_s3_filename, hfmt, hfmt2, Except.map] at heq
    injection heq with heq2
    have hne1 : pad4 t.year ++ pad2 t.week ≠ "" :=
      ne_empty_of_ne_nil _ (by simp [String.data_append, pad4, pad2, data_mk])
    have hne2 : pad4 t2.year ++ pad2 t2.week ≠ "" :=
      ne_empty_of_ne_nil _ (by simp [String.data_append, pad4, pad2, data_mk])
    have hbkt := s3name_inj_same _ _ mac name hne1 hne2 rfl heq2
    exact bucket2_inj t.year t.week t2.year t2.week hy hy2 hw hw2 hbkt
  · have hfmt : format_datetime "months" t = Except.ok (pad4 t.year ++ pad2 t.month) := rfl
    have hfmt2 : format_datetime "months" t2 = Except.ok (pad4 t2.year ++ pad2 t2.month) := rfl
    simp only [build_s3_filename, hfmt, hfmt2, Except.map] at heq
    injection heq with heq2
    have hne1 : pad4 t.year ++ pad2 t.month ≠ "" :=
      ne_empty_of_ne_nil _ (by simp [String.data_append, pad4, pad2, data_mk])
    have hne2 : pad4 t2.year ++ pad2 t2.month ≠ "" :=
      ne_empty_of_ne_nil _ (by simp [String.data_append, pad4, pad2, data_mk])
    have hbkt := s3name_inj_same _ _ mac name hne1 hne2 rfl heq2
    exact bucket2_inj t.year t.month t2.year t2.month hy hy2 hmo hmo2 hbkt
  · have hfmt : format_datetime "years" t = Except.ok (pad4 t.year) := rfl
    have hfmt2 : format_datetime "years" t2 = Except.ok (pad4 t2.year) := rfl
    simp only [build_s3_filename, hfmt, hfmt2, Except.map] at heq
    injection heq with heq2
    have hne1 : pad4 t.year ≠ "" :=
      ne_empty_of_ne_nil _ (by simp [pad4, data_mk])
    have hne2 : pad4 t2.year ≠ "" :=
      ne_empty_of_ne_nil _ (by simp [pad4, data_mk])
    have hbkt := s3name_inj_same _ _ mac name hne1 hne2 rfl heq2
    exact pad4_inj t.year t2.year hy hy2 hbkt

theorem key_determinism_witness :
    build_s3_filename "days" ⟨2024, 5, 1, 10, 0, 0, 0⟩ "m" "f"
        ≠ build_s3_filename "days" ⟨2024, 5, 2, 3, 0, 0, 0⟩ "m" "f"
    ∧ ∀ u u2 : Now, build_s3_filename "never" u "m" "f"
        = build_s3_filename "never" u2 "m" "f" :=
  key_determinism "days" ⟨2024, 5, 1, 10, 0, 0, 0⟩ ⟨2024, 5, 2, 3, 0, 0, 0⟩ "m" "f"
    (by decide) (by decide) (by decide) (by decide)

end S3Manager
